import Mathlib

set_option maxHeartbeats 1000000

/- Shallow embedding of cloudinstall/gui.py (TallerWebSolutions/cloud-installer):
   the ControllerOverlay deployment orchestrator, the NodeViewMode tick
   scheduler and the PegasusGUI.run_async worker/loop bridge.

   Python exceptions are modelled with Except String; in-place mutation of
   the overlay object is modelled by explicit state passing, so each embedded
   method returns its Python return value together with the updated state and
   the list of observable side effects (Event) it performed, in order. -/

namespace CloudInst

/-- Modelled from the spec: a machine as seen in a snapshot (identity, agent
state, network address); gui.py reads machine_id, agent_state and dns_name of
the machine objects owned by the external state provider. -/
structure Machine where
  machine_id : Nat
  agent_state : String
  dns_name : String
deriving Repr, DecidableEq

/-- Modelled from the spec: a named running service from the snapshot; gui.py
reads service_name of each service (units are presentation-only here). -/
structure Service where
  service_name : String
deriving Repr, DecidableEq

/-- Modelled from the spec: the juju side of a snapshot, holding the machine
list returned by machines_allocated() and the running services. -/
structure JujuState where
  machines : List Machine
  services : List Service
deriving Repr, DecidableEq

/-- Modelled from the spec: juju_state.service(name) (defined in the external
pegasus module) returns the live service with the given name, if any. -/
def JujuState.service (j : JujuState) (n : String) : Option Service :=
  j.services.find? (fun s => s.service_name == n)

/-- Modelled from the spec: the maas (infrastructure) side of a snapshot,
holding the machine list returned by machines_allocated(). -/
structure MaasState where
  machines : List Machine
deriving Repr, DecidableEq

/-- Modelled from the spec: the installer runs in exactly one of two modes,
pegasus.SINGLE_SYSTEM or pegasus.MULTI_SYSTEM. -/
inductive Mode where
  | single
  | multi
deriving Repr, DecidableEq

/-- Modelled from the spec: a charm descriptor has an identity (name; gui.py
reads both name() and charm_name, identified here per the spec data model), a
deployment priority and a multi-unit flag. The lifecycle hooks are opaque
external operations; their failure behaviour is given by a HookEnv. -/
structure CharmClass where
  name : String
  deploy_priority : Nat
  allow_multi_units : Bool
deriving Repr, DecidableEq

/-- Modelled from the spec: the charm lifecycle hooks setup, set_relations and
post_proc are external operations that may fail (raise); a HookEnv fixes, per
charm name, whether each hook raises when it is called. -/
structure HookEnv where
  setupRaises : String → Bool
  setRelationsRaises : String → Bool
  postProcRaises : String → Bool

/-- Observable side effects of the orchestrator, the scheduler and the bridge:
charm-hook invocations, the direct command_runner.add_machine() call, the
launch of a background operation through run_async, the one-time lxc network
reconfiguration (scp plus ssh command sequence against a host), and a screen
redraw request. -/
inductive Event where
  | setup (charm : String) (target : String)
  | setRelations (charm : String)
  | postProc (charm : String)
  | addMachine
  | launchAsync (operation : String)
  | configureNetwork (host : String)
  | drawScreen
deriving Repr, DecidableEq

def Event.isConfigureNetwork : Event → Bool
  | .configureNetwork _ => true
  | _ => false

def Event.isHookCall : Event → Bool
  | .setup _ _ => true
  | .setRelations _ => true
  | .postProc _ => true
  | _ => false

/-- Mutable state of ControllerOverlay (gui.py lines 81-100). -/
structure ControllerOverlay where
  done : Bool
  machine : Option Machine
  deployed_charm_classes : List CharmClass
  finalized_charm_classes : List CharmClass
  single_net_configured : Bool
  info_text : String
deriving Repr, DecidableEq

def PXE_BOOT : String :=
  "You need one node to act as the cloud controller. Please PXE boot the node you would like to use."

def NODE_WAIT : String :=
  "Please wait while the cloud controller is installed on your host system."

/-- ControllerOverlay.__init__ (gui.py lines 81-100). -/
def ControllerOverlay.init (mode : Mode) : ControllerOverlay :=
  { done := false
    machine := none
    deployed_charm_classes := []
    finalized_charm_classes := []
    single_net_configured := false
    info_text := if mode = Mode.single then NODE_WAIT else PXE_BOOT }

/-- ControllerOverlay.get_started_machine (gui.py lines 222-230). -/
def get_started_machine (st : ControllerOverlay) (allocated : List Machine) :
    Option Machine × ControllerOverlay :=
  let started_machines := allocated.filter (fun m => m.agent_state == "started")
  match started_machines with
  | [] => (none, { st with info_text := "Waiting for a machine to become ready." })
  | m :: _ => (some m, st)

/-- ControllerOverlay.get_controller_machine (gui.py lines 196-220). The
add_machine branch calls self.command_runner.add_machine() directly, which is
a synchronous JujuClient call (gui.py lines 442-449), recorded as
Event.addMachine. -/
def get_controller_machine (mode : Mode) (st : ControllerOverlay)
    (juju : JujuState) (maas : MaasState) :
    Option Machine × ControllerOverlay × List Event :=
  let allocated := juju.machines
  match mode with
  | Mode.multi =>
    let maas_allocated := maas.machines
    if allocated.length = 0 ∧ maas_allocated.length = 0 then
      (none, { st with info_text :=
        "No machines allocated to juju. Please pxe boot a machine." }, [])
    else if allocated.length = 0 ∧ maas_allocated.length > 0 then
      (none, { st with info_text := "Adding maas machine to juju" },
        [Event.addMachine])
    else
      let r := get_started_machine st allocated
      (r.1, r.2, [])
  | Mode.single =>
    let r := get_started_machine st allocated
    (r.1, r.2, [])

/-- ControllerOverlay.configure_lxc_network (gui.py lines 232-248): remote copy
plus remote command sequence against self.machine.dns_name, then the
single_net_configured latch is set. -/
def configure_lxc_network (st : ControllerOverlay) (m : Machine) :
    ControllerOverlay × List Event :=
  ({ st with single_net_configured := true },
   [Event.configureNetwork m.dns_name])

/-- Deployment loop of ControllerOverlay._process (gui.py lines 142-159): for
each not-yet-deployed charm in order, if a service with its name is already in
the snapshot it is appended to deployed_charm_classes without calling setup;
otherwise setup is called with target lxc:machine_id. There is no
try/except here: a raising setup aborts the loop (and the append after it)
and propagates. -/
def deploy_loop (env : HookEnv) (service_names : List String) (mid : Nat) :
    List CharmClass → List CharmClass →
    Except String Unit × List CharmClass × List Event
  | [], deployed => (Except.ok (), deployed, [])
  | c :: rest, deployed =>
    if c.name ∈ service_names then
      deploy_loop env service_names mid rest (deployed ++ [c])
    else
      let ev := Event.setup c.name ("lxc:" ++ toString mid)
      if env.setupRaises c.name then
        (Except.error "setup failed", deployed, [ev])
      else
        let r := deploy_loop env service_names mid rest (deployed ++ [c])
        (r.1, r.2.1, ev :: r.2.2)

/-- Relation loop of ControllerOverlay._process (gui.py lines 167-182): for
each deployed-but-unfinalized charm, skip it when juju sees no service with
its name yet; otherwise call set_relations then post_proc and append it to
finalized_charm_classes. A raising hook aborts the loop and propagates. -/
def finalize_loop (env : HookEnv) (juju : JujuState) :
    List CharmClass → List CharmClass →
    Except String Unit × List CharmClass × List Event
  | [], finalized => (Except.ok (), finalized, [])
  | c :: rest, finalized =>
    match juju.service c.name with
    | none => finalize_loop env juju rest finalized
    | some _ =>
      if env.setRelationsRaises c.name then
        (Except.error "set_relations failed", finalized, [Event.setRelations c.name])
      else if env.postProcRaises c.name then
        (Except.error "post_proc failed", finalized,
          [Event.setRelations c.name, Event.postProc c.name])
      else
        let r := finalize_loop env juju rest (finalized ++ [c])
        (r.1, r.2.1, Event.setRelations c.name :: Event.postProc c.name :: r.2.2)

/-- Tail of ControllerOverlay._process once self.machine is set (gui.py lines
136-194): deployment loop, relation loop, then the completion test comparing
len(finalized_charm_classes) with len(charm_classes). -/
def processAfterMachine (env : HookEnv) (charm_classes : List CharmClass)
    (st : ControllerOverlay) (juju : JujuState) (m : Machine) :
    Except String Bool × ControllerOverlay × List Event :=
  let undeployed := charm_classes.filter
    (fun c => !decide (c ∈ st.deployed_charm_classes))
  let info1 := if undeployed.length > 0 then "Deploying charms" else st.info_text
  let service_names := juju.services.map (fun s => s.service_name)
  let dres := deploy_loop env service_names m.machine_id undeployed
    st.deployed_charm_classes
  match dres.1 with
  | Except.error e =>
    (Except.error e,
     { st with deployed_charm_classes := dres.2.1, info_text := info1 },
     dres.2.2)
  | Except.ok _ =>
    let unfinalized := dres.2.1.filter
      (fun c => !decide (c ∈ st.finalized_charm_classes))
    let info2 := if unfinalized.length > 0 then "Setting charm relations" else info1
    let fres := finalize_loop env juju unfinalized st.finalized_charm_classes
    match fres.1 with
    | Except.error e =>
      (Except.error e,
       { st with deployed_charm_classes := dres.2.1,
                 finalized_charm_classes := fres.2.1, info_text := info2 },
       dres.2.2 ++ fres.2.2)
    | Except.ok _ =>
      ((Except.ok (if fres.2.1.length = charm_classes.length then false else true)),
       { st with deployed_charm_classes := dres.2.1,
                 finalized_charm_classes := fres.2.1, info_text := info2 },
       dres.2.2 ++ fres.2.2)

/-- ControllerOverlay._process (gui.py lines 114-194). The registered charm
classes (the priority-sorted registry computed at lines 117-122) are passed in
as charm_classes. Controller acquisition runs only while self.machine is None;
on first successful selection in single mode with the latch unset,
configure_lxc_network runs. -/
def ControllerOverlay.processInner (mode : Mode) (env : HookEnv)
    (charm_classes : List CharmClass) (st : ControllerOverlay)
    (juju : JujuState) (maas : MaasState) :
    Except String Bool × ControllerOverlay × List Event :=
  match st.machine with
  | some m => processAfterMachine env charm_classes st juju m
  | none =>
    let gres := get_controller_machine mode st juju maas
    match gres.1 with
    | none => (Except.ok true, gres.2.1, gres.2.2)
    | some m =>
      let st2 := { gres.2.1 with machine := some m }
      if mode = Mode.single ∧ st2.single_net_configured = false then
        let cres := configure_lxc_network st2 m
        let r := processAfterMachine env charm_classes cres.1 juju m
        (r.1, r.2.1, gres.2.2 ++ cres.2 ++ r.2.2)
      else
        let r := processAfterMachine env charm_classes st2 juju m
        (r.1, r.2.1, gres.2.2 ++ r.2.2)

/-- ControllerOverlay.process (gui.py lines 102-112): returns False
immediately when self.done is set; otherwise runs _process and latches
self.done when it returned False. An exception from _process propagates. -/
def ControllerOverlay.process (mode : Mode) (env : HookEnv)
    (charm_classes : List CharmClass) (st : ControllerOverlay)
    (juju : JujuState) (maas : MaasState) :
    Except String Bool × ControllerOverlay × List Event :=
  if st.done then (Except.ok false, st, [])
  else
    let r := ControllerOverlay.processInner mode env charm_classes st juju maas
    match r.1 with
    | Except.ok b =>
      if b then (Except.ok true, r.2.1, r.2.2)
      else (Except.ok false, { r.2.1 with done := true }, r.2.2)
    | Except.error e => (Except.error e, r.2.1, r.2.2)

/-- One tick's worth of input to a process call: the snapshot pair plus the
behaviour of the external charm hooks during that call. -/
structure TickInput where
  env : HookEnv
  juju : JujuState
  maas : MaasState

/-- Repeated process calls on one orchestrator object, accumulating the
observable side effects of the whole call sequence. -/
def processSeq (mode : Mode) (charm_classes : List CharmClass) :
    ControllerOverlay → List TickInput → ControllerOverlay × List Event
  | st, [] => (st, [])
  | st, t :: rest =>
    let r := ControllerOverlay.process mode t.env charm_classes st t.juju t.maas
    let s := processSeq mode charm_classes r.2.1 rest
    (s.1, r.2.2 ++ s.2)

/-- Invariant from the spec: finalizedCharms is contained in deployedCharms,
which is contained in the registered charm classes. -/
def ChainInv (cs : List CharmClass) (st : ControllerOverlay) : Prop :=
  st.finalized_charm_classes ⊆ st.deployed_charm_classes ∧
  st.deployed_charm_classes ⊆ cs

/-- Reachability invariant of a ControllerOverlay state: the inclusion chain,
no duplicates in the progress lists, the done flag only set once every charm
is finalized, and no progress before a controller machine is chosen. -/
def Inv (cs : List CharmClass) (st : ControllerOverlay) : Prop :=
  ChainInv cs st ∧
  st.deployed_charm_classes.Nodup ∧
  st.finalized_charm_classes.Nodup ∧
  (st.done = true → ∀ c ∈ cs, c ∈ st.finalized_charm_classes) ∧
  (st.machine = none →
    st.deployed_charm_classes = [] ∧ st.finalized_charm_classes = [])

/-- Outcome of one bridged call through PegasusGUI.run_async (gui.py lines
723-763). run_f wraps the blocking function in try/except (logging the
traceback via log.debug) and always writes the wake byte, so done() runs
exactly once; done() invokes the callback with the result slot (still None
when the function raised) inside its own try/except (logging via
log.warning). Nothing propagates to the loop, which is why run_async is a
total function here. -/
structure BridgeOutcome (α : Type) where
  callbackArgs : List (Option α)
  worker_log : List String
  callback_log : List String

/-- PegasusGUI.run_async (gui.py lines 723-763), modelling the blocking
function by its outcome (a value or a raised failure) and the callback by a
function that may itself raise. -/
def run_async {α : Type} (f : Except String α)
    (callback : Option α → Except String Unit) : BridgeOutcome α :=
  let res : Option α :=
    match f with
    | Except.ok v => some v
    | Except.error _ => none
  let wlog : List String :=
    match f with
    | Except.ok _ => []
    | Except.error e => [e]
  let clog : List String :=
    match callback res with
    | Except.ok _ => []
    | Except.error e => [e]
  { callbackArgs := [res], worker_log := wlog, callback_log := clog }

/-- State of NodeViewMode used by its tick scheduler (gui.py lines 475-605):
poll countdown, timer text, whether the controller overlay is still the
active target, and the overlay itself. -/
structure NodeViewMode where
  poll_interval : Int
  ticks_left : Int
  timer : String
  targetIsOverlay : Bool
  overlay : ControllerOverlay

/-- NodeViewMode.tick (gui.py lines 587-594): when the countdown is zero it
is reset to poll_interval and a bridged poll (run_async of refresh_states
with callback update_and_redraw) is launched; the timer text then shows the
current countdown and the countdown is decremented once. -/
def NodeViewMode.tick (nv : NodeViewMode) : NodeViewMode × List Event :=
  let p : Int × List Event :=
    if nv.ticks_left = 0 then (nv.poll_interval, [Event.launchAsync "refresh_states"])
    else (nv.ticks_left, [])
  ({ nv with ticks_left := p.1 - 1,
             timer := "(Re-poll in " ++ toString p.1 ++ " (s))" }, p.2)

/-- NodeViewMode.keypress (gui.py lines 596-605): F5 zeroes the countdown so
the next tick polls immediately. -/
def NodeViewMode.keypress (nv : NodeViewMode) (key : String) : NodeViewMode :=
  if key == "f5" then { nv with ticks_left := 0 } else nv

/-- NodeViewMode.do_update (gui.py lines 546-562): while the controller
overlay is the target, run its process on the polled states and drop the
overlay as target once it reports completion. An exception from process
propagates. -/
def NodeViewMode.do_update (mode : Mode) (env : HookEnv) (cs : List CharmClass)
    (nv : NodeViewMode) (juju : JujuState) (maas : MaasState) :
    Except String Unit × NodeViewMode × List Event :=
  if nv.targetIsOverlay then
    let r := ControllerOverlay.process mode env cs nv.overlay juju maas
    match r.1 with
    | Except.ok b =>
      if b then (Except.ok (), { nv with overlay := r.2.1 }, r.2.2)
      else (Except.ok (),
        { nv with overlay := r.2.1, targetIsOverlay := false }, r.2.2)
    | Except.error e => (Except.error e, { nv with overlay := r.2.1 }, r.2.2)
  else (Except.ok (), nv, [])

/-- NodeViewMode.update_and_redraw (gui.py lines 564-585), the callback of the
bridged poll: runs do_update on the polled state and then requests a screen
redraw (loop.draw_screen; the footer url updates are presentation-only and
omitted). An exception from do_update propagates before the redraw. -/
def NodeViewMode.update_and_redraw (mode : Mode) (env : HookEnv) (cs : List CharmClass)
    (nv : NodeViewMode) (juju : JujuState) (maas : MaasState) :
    Except String Unit × NodeViewMode × List Event :=
  let r := NodeViewMode.do_update mode env cs nv juju maas
  match r.1 with
  | Except.ok _ => (Except.ok (), r.2.1, r.2.2 ++ [Event.drawScreen])
  | Except.error e => (Except.error e, r.2.1, r.2.2)

/- Concrete fixtures used by witnesses and counterexamples -/

def mach0 : Machine := { machine_id := 0, agent_state := "started", dns_name := "host0" }

def charmA : CharmClass := { name := "nova", deploy_priority := 0, allow_multi_units := false }

def charmB : CharmClass := { name := "glance", deploy_priority := 1, allow_multi_units := true }

def envOk : HookEnv :=
  { setupRaises := fun _ => false
    setRelationsRaises := fun _ => false
    postProcRaises := fun _ => false }

def envNovaSetupRaises : HookEnv :=
  { setupRaises := fun n => n == "nova"
    setRelationsRaises := fun _ => false
    postProcRaises := fun _ => false }

def jujuEmpty : JujuState := { machines := [mach0], services := [] }

def jujuNova : JujuState := { machines := [mach0], services := [{ service_name := "nova" }] }

def jujuNoMachines : JujuState := { machines := [], services := [] }

def maasEmpty : MaasState := { machines := [] }

def maasOne : MaasState := { machines := [mach0] }

def cs0 : List CharmClass := [charmA, charmB]

def tick0 : TickInput := { env := envOk, juju := jujuEmpty, maas := maasEmpty }

def tickNova : TickInput := { env := envOk, juju := jujuNova, maas := maasEmpty }

def stSelected : ControllerOverlay :=
  { done := false
    machine := some mach0
    deployed_charm_classes := []
    finalized_charm_classes := []
    single_net_configured := true
    info_text := "" }

def nvDemo : NodeViewMode :=
  { poll_interval := 10, ticks_left := 0, timer := "", targetIsOverlay := true,
    overlay := stSelected }

/- Loop lemmas -/

theorem deploy_loop_deployed (env : HookEnv) (sns : List String) (mid : Nat) :
    ∀ (und dep : List CharmClass),
      ∃ extra, (deploy_loop env sns mid und dep).2.1 = dep ++ extra ∧
        List.Sublist extra und := by
  intro und
  induction und with
  | nil => intro dep; exact ⟨[], by simp [deploy_loop], List.nil_sublist _⟩
  | cons c rest ih =>
    intro dep
    by_cases hmem : c.name ∈ sns
    · obtain ⟨extra, he, hs⟩ := ih (dep ++ [c])
      refine ⟨c :: extra, ?_, List.Sublist.cons₂ c hs⟩
      simp [deploy_loop, hmem, he]
    · by_cases hr : env.setupRaises c.name = true
      · refine ⟨[], ?_, List.nil_sublist _⟩
        simp [deploy_loop, hmem, hr]
      · obtain ⟨extra, he, hs⟩ := ih (dep ++ [c])
        refine ⟨c :: extra, ?_, List.Sublist.cons₂ c hs⟩
        simp [deploy_loop, hmem, hr, he]

theorem deploy_loop_honest (env : HookEnv) (sns : List String) (mid : Nat) :
    ∀ (und dep : List CharmClass),
      (∀ c ∈ und, env.setupRaises c.name = false) →
      (deploy_loop env sns mid und dep).1 = Except.ok () ∧
      (deploy_loop env sns mid und dep).2.1 = dep ++ und := by
  intro und
  induction und with
  | nil => intro dep _; simp [deploy_loop]
  | cons c rest ih =>
    intro dep h
    have hc : env.setupRaises c.name = false := h c (by simp)
    have hrest : ∀ c' ∈ rest, env.setupRaises c'.name = false :=
      fun c' hm => h c' (by simp [hm])
    obtain ⟨ih1, ih2⟩ := ih (dep ++ [c]) hrest
    by_cases hmem : c.name ∈ sns
    · constructor
      · simp [deploy_loop, hmem, ih1]
      · simp [deploy_loop, hmem, ih2]
    · constructor
      · simp [deploy_loop, hmem, hc, ih1]
      · simp [deploy_loop, hmem, hc, ih2]

theorem deploy_loop_setup_events (env : HookEnv) (sns : List String) (mid : Nat) :
    ∀ (und dep : List CharmClass) (n t : String),
      Event.setup n t ∈ (deploy_loop env sns mid und dep).2.2 →
      n ∉ sns ∧ t = "lxc:" ++ toString mid := by
  intro und
  induction und with
  | nil => intro dep n t h; simp [deploy_loop] at h
  | cons c rest ih =>
    intro dep n t h
    by_cases hmem : c.name ∈ sns
    · exact ih (dep ++ [c]) n t (by simpa [deploy_loop, hmem] using h)
    · by_cases hr : env.setupRaises c.name = true
      · simp [deploy_loop, hmem, hr] at h
        obtain ⟨h1, h2⟩ := h
        subst h1; subst h2
        exact ⟨hmem, rfl⟩
      · simp [deploy_loop, hmem, hr] at h
        rcases h with ⟨h1, h2⟩ | h
        · subst h1; subst h2
          exact ⟨hmem, rfl⟩
        · exact ih (dep ++ [c]) n t h

theorem deploy_loop_events_hooks (env : HookEnv) (sns : List String) (mid : Nat) :
    ∀ (und dep : List CharmClass) (ev : Event),
      ev ∈ (deploy_loop env sns mid und dep).2.2 → ev.isHookCall = true := by
  intro und
  induction und with
  | nil => intro dep ev h; simp [deploy_loop] at h
  | cons c rest ih =>
    intro dep ev h
    by_cases hmem : c.name ∈ sns
    · exact ih (dep ++ [c]) ev (by simpa [deploy_loop, hmem] using h)
    · by_cases hr : env.setupRaises c.name = true
      · simp [deploy_loop, hmem, hr] at h
        subst h; rfl
      · simp [deploy_loop, hmem, hr] at h
        rcases h with h | h
        · subst h; rfl
        · exact ih (dep ++ [c]) ev h

theorem finalize_loop_finalized (env : HookEnv) (juju : JujuState) :
    ∀ (unf fin : List CharmClass),
      ∃ extra, (finalize_loop env juju unf fin).2.1 = fin ++ extra ∧
        List.Sublist extra unf ∧
        ∀ c ∈ extra, (juju.service c.name).isSome = true := by
  intro unf
  induction unf with
  | nil =>
    intro fin
    exact ⟨[], by simp [finalize_loop], List.nil_sublist _, by simp⟩
  | cons c rest ih =>
    intro fin
    cases hsvc : juju.service c.name with
    | none =>
      obtain ⟨extra, he, hs, hsvcs⟩ := ih fin
      refine ⟨extra, ?_, List.Sublist.cons c hs, hsvcs⟩
      simp [finalize_loop, hsvc, he]
    | some s =>
      by_cases hr : env.setRelationsRaises c.name = true
      · refine ⟨[], ?_, List.nil_sublist _, by simp⟩
        simp [finalize_loop, hsvc, hr]
      · by_cases hp : env.postProcRaises c.name = true
        · refine ⟨[], ?_, List.nil_sublist _, by simp⟩
          simp [finalize_loop, hsvc, hr, hp]
        · obtain ⟨extra, he, hs, hsvcs⟩ := ih (fin ++ [c])
          refine ⟨c :: extra, ?_, List.Sublist.cons₂ c hs, ?_⟩
          · simp [finalize_loop, hsvc, hr, hp, he]
          · intro c' hc'
            rcases List.mem_cons.mp hc' with h | h
            · subst h; simp [hsvc]
            · exact hsvcs c' h

theorem finalize_loop_events_hooks (env : HookEnv) (juju : JujuState) :
    ∀ (unf fin : List CharmClass) (ev : Event),
      ev ∈ (finalize_loop env juju unf fin).2.2 → ev.isHookCall = true ∧
        ∀ n t, ev ≠ Event.setup n t := by
  intro unf
  induction unf with
  | nil => intro fin ev h; simp [finalize_loop] at h
  | cons c rest ih =>
    intro fin ev h
    cases hsvc : juju.service c.name with
    | none => exact ih fin ev (by simpa [finalize_loop, hsvc] using h)
    | some s =>
      by_cases hr : env.setRelationsRaises c.name = true
      · simp [finalize_loop, hsvc, hr] at h
        subst h; exact ⟨rfl, by simp⟩
      · by_cases hp : env.postProcRaises c.name = true
        · simp [finalize_loop, hsvc, hr, hp] at h
          rcases h with h | h <;> (subst h; exact ⟨rfl, by simp⟩)
        · simp [finalize_loop, hsvc, hr, hp] at h
          rcases h with h | h | h
          · subst h; exact ⟨rfl, by simp⟩
          · subst h; exact ⟨rfl, by simp⟩
          · exact ih (fin ++ [c]) ev h

/- Lemmas about the post-acquisition tail of _process -/

theorem processAfterMachine_fields (env : HookEnv) (cs : List CharmClass)
    (st : ControllerOverlay) (juju : JujuState) (m : Machine) :
    ((processAfterMachine env cs st juju m).2.1.machine = st.machine) ∧
    ((processAfterMachine env cs st juju m).2.1.done = st.done) ∧
    ((processAfterMachine env cs st juju m).2.1.single_net_configured
      = st.single_net_configured) := by
  simp only [processAfterMachine]
  rcases hD : deploy_loop env (juju.services.map fun s => s.service_name) m.machine_id
      (cs.filter fun c => !decide (c ∈ st.deployed_charm_classes))
      st.deployed_charm_classes with ⟨r1, d1, e1⟩
  simp only [hD]
  cases r1 with
  | error e => simp
  | ok u =>
    rcases hF : finalize_loop env juju
        (d1.filter fun c => !decide (c ∈ st.finalized_charm_classes))
        st.finalized_charm_classes with ⟨r2, f1, e2⟩
    simp only [hF]
    cases r2 with
    | error e => simp
    | ok u2 => simp

theorem processAfterMachine_deployed (env : HookEnv) (cs : List CharmClass)
    (st : ControllerOverlay) (juju : JujuState) (m : Machine) :
    ∃ dE, (processAfterMachine env cs st juju m).2.1.deployed_charm_classes
        = st.deployed_charm_classes ++ dE ∧
      List.Sublist dE (cs.filter fun c => !decide (c ∈ st.deployed_charm_classes)) := by
  obtain ⟨dE, hdE, hs⟩ := deploy_loop_deployed env
    (juju.services.map fun s => s.service_name) m.machine_id
    (cs.filter fun c => !decide (c ∈ st.deployed_charm_classes)) st.deployed_charm_classes
  refine ⟨dE, ?_, hs⟩
  simp only [processAfterMachine]
  rcases hD : deploy_loop env (juju.services.map fun s => s.service_name) m.machine_id
      (cs.filter fun c => !decide (c ∈ st.deployed_charm_classes))
      st.deployed_charm_classes with ⟨r1, d1, e1⟩
  rw [hD] at hdE
  simp only [hD]
  cases r1 with
  | error e => simpa using hdE
  | ok u =>
    rcases hF : finalize_loop env juju
        (d1.filter fun c => !decide (c ∈ st.finalized_charm_classes))
        st.finalized_charm_classes with ⟨r2, f1, e2⟩
    simp only [hF]
    cases r2 with
    | error e => simpa using hdE
    | ok u2 => simpa using hdE

theorem processAfterMachine_finalized (env : HookEnv) (cs : List CharmClass)
    (st : ControllerOverlay) (juju : JujuState) (m : Machine) :
    ∃ fE, (processAfterMachine env cs st juju m).2.1.finalized_charm_classes
        = st.finalized_charm_classes ++ fE ∧
      List.Sublist fE ((processAfterMachine env cs st juju m).2.1.deployed_charm_classes.filter
        fun c => !decide (c ∈ st.finalized_charm_classes)) ∧
      ∀ c ∈ fE, (juju.service c.name).isSome = true := by
  simp only [processAfterMachine]
  rcases hD : deploy_loop env (juju.services.map fun s => s.service_name) m.machine_id
      (cs.filter fun c => !decide (c ∈ st.deployed_charm_classes))
      st.deployed_charm_classes with ⟨r1, d1, e1⟩
  simp only [hD]
  cases r1 with
  | error e => exact ⟨[], by simp, by simp, by simp⟩
  | ok u =>
    obtain ⟨fE, hfE, hfs, hsvc⟩ := finalize_loop_finalized env juju
      (d1.filter fun c => !decide (c ∈ st.finalized_charm_classes))
      st.finalized_charm_classes
    rcases hF : finalize_loop env juju
        (d1.filter fun c => !decide (c ∈ st.finalized_charm_classes))
        st.finalized_charm_classes with ⟨r2, f1, e2⟩
    rw [hF] at hfE
    simp only [hF]
    cases r2 with
    | error e => exact ⟨fE, by simpa using hfE, by simpa using hfs, hsvc⟩
    | ok u2 => exact ⟨fE, by simpa using hfE, by simpa using hfs, hsvc⟩

theorem processAfterMachine_events_hooks (env : HookEnv) (cs : List CharmClass)
    (st : ControllerOverlay) (juju : JujuState) (m : Machine) :
    ∀ ev ∈ (processAfterMachine env cs st juju m).2.2, ev.isHookCall = true := by
  intro ev hev
  simp only [processAfterMachine] at hev
  rcases hD : deploy_loop env (juju.services.map fun s => s.service_name) m.machine_id
      (cs.filter fun c => !decide (c ∈ st.deployed_charm_classes))
      st.deployed_charm_classes with ⟨r1, d1, e1⟩
  rw [hD] at hev
  have hd := deploy_loop_events_hooks env (juju.services.map fun s => s.service_name)
    m.machine_id (cs.filter fun c => !decide (c ∈ st.deployed_charm_classes))
    st.deployed_charm_classes
  rw [hD] at hd
  cases r1 with
  | error e => exact hd ev (by simpa using hev)
  | ok u =>
    rcases hF : finalize_loop env juju
        (d1.filter fun c => !decide (c ∈ st.finalized_charm_classes))
        st.finalized_charm_classes with ⟨r2, f1, e2⟩
    rw [hF] at hev
    have hf := finalize_loop_events_hooks env juju
      (d1.filter fun c => !decide (c ∈ st.finalized_charm_classes))
      st.finalized_charm_classes
    rw [hF] at hf
    cases r2 with
    | error e =>
      simp only at hev
      rcases List.mem_append.mp (by simpa using hev) with h | h
      · exact hd ev h
      · exact (hf ev h).1
    | ok u2 =>
      simp only at hev
      rcases List.mem_append.mp (by simpa using hev) with h | h
      · exact hd ev h
      · exact (hf ev h).1

theorem processAfterMachine_setup_events (env : HookEnv) (cs : List CharmClass)
    (st : ControllerOverlay) (juju : JujuState) (m : Machine) :
    ∀ n t, Event.setup n t ∈ (processAfterMachine env cs st juju m).2.2 →
      t = "lxc:" ++ toString m.machine_id ∧
      n ∉ juju.services.map (fun s => s.service_name) := by
  intro n t hev
  simp only [processAfterMachine] at hev
  rcases hD : deploy_loop env (juju.services.map fun s => s.service_name) m.machine_id
      (cs.filter fun c => !decide (c ∈ st.deployed_charm_classes))
      st.deployed_charm_classes with ⟨r1, d1, e1⟩
  rw [hD] at hev
  have hd := deploy_loop_setup_events env (juju.services.map fun s => s.service_name)
    m.machine_id (cs.filter fun c => !decide (c ∈ st.deployed_charm_classes))
    st.deployed_charm_classes n t
  rw [hD] at hd
  cases r1 with
  | error e =>
    obtain ⟨h1, h2⟩ := hd (by simpa using hev)
    exact ⟨h2, h1⟩
  | ok u =>
    rcases hF : finalize_loop env juju
        (d1.filter fun c => !decide (c ∈ st.finalized_charm_classes))
        st.finalized_charm_classes with ⟨r2, f1, e2⟩
    rw [hF] at hev
    have hf := finalize_loop_events_hooks env juju
      (d1.filter fun c => !decide (c ∈ st.finalized_charm_classes))
      st.finalized_charm_classes
    rw [hF] at hf
    cases r2 with
    | error e =>
      simp only at hev
      rcases List.mem_append.mp (by simpa using hev) with h | h
      · obtain ⟨h1, h2⟩ := hd h
        exact ⟨h2, h1⟩
      · exact absurd rfl ((hf _ h).2 n t)
    | ok u2 =>
      simp only at hev
      rcases List.mem_append.mp (by simpa using hev) with h | h
      · obtain ⟨h1, h2⟩ := hd h
        exact ⟨h2, h1⟩
      · exact absurd rfl ((hf _ h).2 n t)

theorem processAfterMachine_ret (env : HookEnv) (cs : List CharmClass)
    (st : ControllerOverlay) (juju : JujuState) (m : Machine) :
    ∀ b, (processAfterMachine env cs st juju m).1 = Except.ok b →
      (b = false ↔
        (processAfterMachine env cs st juju m).2.1.finalized_charm_classes.length
          = cs.length) := by
  intro b hb
  simp only [processAfterMachine] at hb ⊢
  rcases hD : deploy_loop env (juju.services.map fun s => s.service_name) m.machine_id
      (cs.filter fun c => !decide (c ∈ st.deployed_charm_classes))
      st.deployed_charm_classes with ⟨r1, d1, e1⟩
  rw [hD] at hb ⊢
  cases r1 with
  | error e => simp at hb
  | ok u =>
    rcases hF : finalize_loop env juju
        (d1.filter fun c => !decide (c ∈ st.finalized_charm_classes))
        st.finalized_charm_classes with ⟨r2, f1, e2⟩
    dsimp only at hb ⊢
    cases r2 with
    | error e =>
      rw [hF] at hb
      simp at hb
    | ok u2 =>
      rw [hF] at hb
      simp only [Except.ok.injEq] at hb
      by_cases hlen : f1.length = cs.length
      · simp [← hb, hlen]
      · simp [← hb, hlen]

theorem processAfterMachine_honest_deployed (env : HookEnv) (cs : List CharmClass)
    (st : ControllerOverlay) (juju : JujuState) (m : Machine)
    (hhon : ∀ c : CharmClass, env.setupRaises c.name = false) :
    (processAfterMachine env cs st juju m).2.1.deployed_charm_classes
      = st.deployed_charm_classes
        ++ (cs.filter fun c => !decide (c ∈ st.deployed_charm_classes)) := by
  obtain ⟨h1, h2⟩ := deploy_loop_honest env
    (juju.services.map fun s => s.service_name) m.machine_id
    (cs.filter fun c => !decide (c ∈ st.deployed_charm_classes))
    st.deployed_charm_classes (fun c _ => hhon c)
  simp only [processAfterMachine]
  rcases hD : deploy_loop env (juju.services.map fun s => s.service_name) m.machine_id
      (cs.filter fun c => !decide (c ∈ st.deployed_charm_classes))
      st.deployed_charm_classes with ⟨r1, d1, e1⟩
  rw [hD] at h1 h2
  simp only [hD]
  cases r1 with
  | error e => simp at h1
  | ok u =>
    rcases hF : finalize_loop env juju
        (d1.filter fun c => !decide (c ∈ st.finalized_charm_classes))
        st.finalized_charm_classes with ⟨r2, f1, e2⟩
    simp only [hF]
    cases r2 with
    | error e => simpa using h2
    | ok u2 => simpa using h2

/- Lemmas about controller acquisition -/

theorem get_started_machine_shape (st : ControllerOverlay) (allocated : List Machine) :
    ((get_started_machine st allocated).2.machine = st.machine ∧
     (get_started_machine st allocated).2.done = st.done ∧
     (get_started_machine st allocated).2.deployed_charm_classes
       = st.deployed_charm_classes ∧
     (get_started_machine st allocated).2.finalized_charm_classes
       = st.finalized_charm_classes ∧
     (get_started_machine st allocated).2.single_net_configured
       = st.single_net_configured) ∧
    (get_started_machine st allocated).1
      = (allocated.filter fun m => m.agent_state == "started").head? := by
  unfold get_started_machine
  dsimp only
  split <;> rename_i heq <;> simp [heq]

theorem get_controller_machine_state (mode : Mode) (st : ControllerOverlay)
    (juju : JujuState) (maas : MaasState) :
    (get_controller_machine mode st juju maas).2.1.machine = st.machine ∧
    (get_controller_machine mode st juju maas).2.1.done = st.done ∧
    (get_controller_machine mode st juju maas).2.1.deployed_charm_classes
      = st.deployed_charm_classes ∧
    (get_controller_machine mode st juju maas).2.1.finalized_charm_classes
      = st.finalized_charm_classes ∧
    (get_controller_machine mode st juju maas).2.1.single_net_configured
      = st.single_net_configured := by
  cases mode with
  | single =>
    obtain ⟨⟨h1, h2, h3, h4, h5⟩, h6⟩ := get_started_machine_shape st juju.machines
    simp [get_controller_machine, h1, h2, h3, h4, h5]
  | multi =>
    simp only [get_controller_machine]
    split
    · simp
    · split
      · simp
      · obtain ⟨⟨h1, h2, h3, h4, h5⟩, h6⟩ := get_started_machine_shape st juju.machines
        simp [h1, h2, h3, h4, h5]

theorem get_controller_machine_events (mode : Mode) (st : ControllerOverlay)
    (juju : JujuState) (maas : MaasState) :
    ∀ ev ∈ (get_controller_machine mode st juju maas).2.2, ev = Event.addMachine := by
  intro ev h
  cases mode with
  | single => simp [get_controller_machine] at h
  | multi =>
    simp only [get_controller_machine] at h
    split at h
    · simp at h
    · split at h
      · simp at h
        exact h
      · simp at h

/- Lemmas about _process and process -/

theorem processInner_machine_some (mode : Mode) (env : HookEnv) (cs : List CharmClass)
    (st : ControllerOverlay) (juju : JujuState) (maas : MaasState) (m : Machine)
    (hm : st.machine = some m) :
    ControllerOverlay.processInner mode env cs st juju maas
      = processAfterMachine env cs st juju m := by
  unfold ControllerOverlay.processInner
  rw [hm]

theorem processInner_shape (mode : Mode) (env : HookEnv) (cs : List CharmClass)
    (st : ControllerOverlay) (juju : JujuState) (maas : MaasState) :
    ∃ dE fE,
      (ControllerOverlay.processInner mode env cs st juju maas).2.1.deployed_charm_classes
        = st.deployed_charm_classes ++ dE ∧
      List.Sublist dE (cs.filter fun c => !decide (c ∈ st.deployed_charm_classes)) ∧
      (ControllerOverlay.processInner mode env cs st juju maas).2.1.finalized_charm_classes
        = st.finalized_charm_classes ++ fE ∧
      List.Sublist fE
        ((ControllerOverlay.processInner mode env cs st juju maas).2.1.deployed_charm_classes.filter
          fun c => !decide (c ∈ st.finalized_charm_classes)) ∧
      (∀ c ∈ fE, (juju.service c.name).isSome = true) ∧
      (ControllerOverlay.processInner mode env cs st juju maas).2.1.done = st.done := by
  cases hm : st.machine with
  | some m =>
    rw [processInner_machine_some mode env cs st juju maas m hm]
    obtain ⟨dE, hd1, hd2⟩ := processAfterMachine_deployed env cs st juju m
    obtain ⟨fE, hf1, hf2, hf3⟩ := processAfterMachine_finalized env cs st juju m
    obtain ⟨_, hdn, _⟩ := processAfterMachine_fields env cs st juju m
    exact ⟨dE, fE, hd1, hd2, hf1, hf2, hf3, hdn⟩
  | none =>
    have hS := get_controller_machine_state mode st juju maas
    have hE := get_controller_machine_events mode st juju maas
    unfold ControllerOverlay.processInner
    rw [hm]
    rcases hG : get_controller_machine mode st juju maas with ⟨mo, st1, ev1⟩
    rw [hG] at hS
    dsimp only at hS ⊢
    obtain ⟨hS1, hS2, hS3, hS4, hS5⟩ := hS
    cases mo with
    | none =>
      exact ⟨[], [], by simp [hS3], by simp, by simp [hS4], by simp, by simp, by simp [hS2]⟩
    | some m =>
      dsimp only
      split
      · obtain ⟨dE, hd1, hd2⟩ := processAfterMachine_deployed env cs
          { st1 with machine := some m, single_net_configured := true } juju m
        obtain ⟨fE, hf1, hf2, hf3⟩ := processAfterMachine_finalized env cs
          { st1 with machine := some m, single_net_configured := true } juju m
        obtain ⟨_, hdn, _⟩ := processAfterMachine_fields env cs
          { st1 with machine := some m, single_net_configured := true } juju m
        refine ⟨dE, fE, ?_, ?_, ?_, ?_, hf3, ?_⟩
        · simpa [hS3] using hd1
        · simpa [hS3] using hd2
        · simpa [hS4] using hf1
        · simpa [hS3, hS4] using hf2
        · simpa [hS2] using hdn
      · obtain ⟨dE, hd1, hd2⟩ := processAfterMachine_deployed env cs
          { st1 with machine := some m } juju m
        obtain ⟨fE, hf1, hf2, hf3⟩ := processAfterMachine_finalized env cs
          { st1 with machine := some m } juju m
        obtain ⟨_, hdn, _⟩ := processAfterMachine_fields env cs
          { st1 with machine := some m } juju m
        refine ⟨dE, fE, ?_, ?_, ?_, ?_, hf3, ?_⟩
        · simpa [hS3] using hd1
        · simpa [hS3] using hd2
        · simpa [hS4] using hf1
        · simpa [hS3, hS4] using hf2
        · simpa [hS2] using hdn

theorem process_state_eq (mode : Mode) (env : HookEnv) (cs : List CharmClass)
    (st : ControllerOverlay) (juju : JujuState) (maas : MaasState)
    (hdone : st.done = false) :
    (ControllerOverlay.process mode env cs st juju maas).2.1.deployed_charm_classes
      = (ControllerOverlay.processInner mode env cs st juju maas).2.1.deployed_charm_classes ∧
    (ControllerOverlay.process mode env cs st juju maas).2.1.finalized_charm_classes
      = (ControllerOverlay.processInner mode env cs st juju maas).2.1.finalized_charm_classes ∧
    (ControllerOverlay.process mode env cs st juju maas).2.1.machine
      = (ControllerOverlay.processInner mode env cs st juju maas).2.1.machine ∧
    (ControllerOverlay.process mode env cs st juju maas).2.1.single_net_configured
      = (ControllerOverlay.processInner mode env cs st juju maas).2.1.single_net_configured ∧
    (ControllerOverlay.process mode env cs st juju maas).2.2
      = (ControllerOverlay.processInner mode env cs st juju maas).2.2 ∧
    (ControllerOverlay.process mode env cs st juju maas).1
      = (ControllerOverlay.processInner mode env cs st juju maas).1 ∧
    ((ControllerOverlay.process mode env cs st juju maas).1 = Except.ok false →
      (ControllerOverlay.process mode env cs st juju maas).2.1.done = true) ∧
    ((ControllerOverlay.process mode env cs st juju maas).1 ≠ Except.ok false →
      (ControllerOverlay.process mode env cs st juju maas).2.1.done
        = (ControllerOverlay.processInner mode env cs st juju maas).2.1.done) := by
  simp only [ControllerOverlay.process, hdone]
  rcases hR : ControllerOverlay.processInner mode env cs st juju maas with ⟨r1, st1, ev1⟩
  dsimp only
  cases r1 with
  | error e => simp
  | ok b => cases b <;> simp

theorem process_shape (mode : Mode) (env : HookEnv) (cs : List CharmClass)
    (st : ControllerOverlay) (juju : JujuState) (maas : MaasState) :
    ∃ dE fE,
      (ControllerOverlay.process mode env cs st juju maas).2.1.deployed_charm_classes
        = st.deployed_charm_classes ++ dE ∧
      List.Sublist dE (cs.filter fun c => !decide (c ∈ st.deployed_charm_classes)) ∧
      (ControllerOverlay.process mode env cs st juju maas).2.1.finalized_charm_classes
        = st.finalized_charm_classes ++ fE ∧
      List.Sublist fE
        ((ControllerOverlay.process mode env cs st juju maas).2.1.deployed_charm_classes.filter
          fun c => !decide (c ∈ st.finalized_charm_classes)) ∧
      (∀ c ∈ fE, (juju.service c.name).isSome = true) := by
  cases hdone : st.done with
  | true =>
    exact ⟨[], [], by simp [ControllerOverlay.process, hdone], by simp,
      by simp [ControllerOverlay.process, hdone], by simp [ControllerOverlay.process, hdone], by simp⟩
  | false =>
    obtain ⟨dE, fE, h1, h2, h3, h4, h5, h6⟩ := processInner_shape mode env cs st juju maas
    obtain ⟨e1, e2, e3, e4, e5⟩ := process_state_eq mode env cs st juju maas hdone
    rw [e1, e2]
    exact ⟨dE, fE, h1, h2, h3, h4, h5⟩

theorem hookCall_not_config (ev : Event) (h : ev.isHookCall = true) :
    ev.isConfigureNetwork = false := by
  cases ev <;> simp_all [Event.isHookCall, Event.isConfigureNetwork]

theorem processAfterMachine_no_config (env : HookEnv) (cs : List CharmClass)
    (st : ControllerOverlay) (juju : JujuState) (m : Machine) :
    (processAfterMachine env cs st juju m).2.2.filter Event.isConfigureNetwork = [] := by
  rw [List.filter_eq_nil_iff]
  intro ev hev
  simp [hookCall_not_config ev (processAfterMachine_events_hooks env cs st juju m ev hev)]

theorem process_machine_mono (mode : Mode) (env : HookEnv) (cs : List CharmClass)
    (st : ControllerOverlay) (juju : JujuState) (maas : MaasState) (m : Machine)
    (hm : st.machine = some m) :
    (ControllerOverlay.process mode env cs st juju maas).2.1.machine = some m ∧
    (∀ n t, Event.setup n t ∈ (ControllerOverlay.process mode env cs st juju maas).2.2 →
      t = "lxc:" ++ toString m.machine_id) ∧
    (ControllerOverlay.process mode env cs st juju maas).2.2.filter
      Event.isConfigureNetwork = [] ∧
    (ControllerOverlay.process mode env cs st juju maas).2.1.single_net_configured
      = st.single_net_configured := by
  cases hdone : st.done with
  | true =>
    refine ⟨?_, ?_, ?_, ?_⟩ <;> simp [ControllerOverlay.process, hdone, hm]
  | false =>
    obtain ⟨e1, e2, e3, e4, e5, e6, e7, e8⟩ := process_state_eq mode env cs st juju maas hdone
    have hpi := processInner_machine_some mode env cs st juju maas m hm
    obtain ⟨f1, f2, f3⟩ := processAfterMachine_fields env cs st juju m
    refine ⟨?_, ?_, ?_, ?_⟩
    · rw [e3, hpi, f1, hm]
    · intro n t ht
      rw [e5, hpi] at ht
      exact (processAfterMachine_setup_events env cs st juju m n t ht).1
    · rw [e5, hpi]
      exact processAfterMachine_no_config env cs st juju m
    · rw [e4, hpi, f3]

theorem process_single_none (env : HookEnv) (cs : List CharmClass)
    (st : ControllerOverlay) (juju : JujuState) (maas : MaasState)
    (hm : st.machine = none) (hn : st.single_net_configured = false) :
    ((ControllerOverlay.process Mode.single env cs st juju maas).2.1.machine = none ∧
     (ControllerOverlay.process Mode.single env cs st juju maas).2.1.single_net_configured
       = false ∧
     (ControllerOverlay.process Mode.single env cs st juju maas).2.2.filter
       Event.isConfigureNetwork = []) ∨
    (∃ m, (ControllerOverlay.process Mode.single env cs st juju maas).2.1.machine = some m ∧
     (ControllerOverlay.process Mode.single env cs st juju maas).2.2.filter
       Event.isConfigureNetwork = [Event.configureNetwork m.dns_name]) := by
  cases hdone : st.done with
  | true =>
    left
    refine ⟨?_, ?_, ?_⟩ <;> simp [ControllerOverlay.process, hdone, hm, hn]
  | false =>
    obtain ⟨e1, e2, e3, e4, e5, e6, e7, e8⟩ :=
      process_state_eq Mode.single env cs st juju maas hdone
    have hS := get_controller_machine_state Mode.single st juju maas
    rw [e3, e4, e5]
    unfold ControllerOverlay.processInner
    rw [hm]
    rcases hG : get_controller_machine Mode.single st juju maas with ⟨mo, st1, ev1⟩
    rw [hG] at hS
    dsimp only at hS ⊢
    obtain ⟨hS1, hS2, hS3, hS4, hS5⟩ := hS
    have hev1 : ev1.filter Event.isConfigureNetwork = [] := by
      have hE := get_controller_machine_events Mode.single st juju maas
      rw [hG] at hE
      rw [List.filter_eq_nil_iff]
      intro ev hev
      rw [hE ev hev]
      simp [Event.isConfigureNetwork]
    cases mo with
    | none =>
      left
      exact ⟨by simpa [hm] using hS1, by simpa [hn] using hS5, hev1⟩
    | some m =>
      right
      refine ⟨m, ?_, ?_⟩
      · dsimp only
        rw [if_pos ⟨rfl, by simpa [hn] using hS5⟩]
        obtain ⟨f1, _, _⟩ := processAfterMachine_fields env cs
          { st1 with machine := some m, single_net_configured := true } juju m
        simpa using f1
      · dsimp only
        rw [if_pos ⟨rfl, by simpa [hn] using hS5⟩]
        simp only [configure_lxc_network]
        rw [List.filter_append, List.filter_append, hev1]
        rw [processAfterMachine_no_config env cs
          { st1 with machine := some m, single_net_configured := true } juju m]
        simp [Event.isConfigureNetwork]

theorem processInner_cases (mode : Mode) (env : HookEnv) (cs : List CharmClass)
    (st : ControllerOverlay) (juju : JujuState) (maas : MaasState) :
    ((ControllerOverlay.processInner mode env cs st juju maas).1 = Except.ok true ∧
     (ControllerOverlay.processInner mode env cs st juju maas).2.1.machine = none ∧
     st.machine = none ∧
     (ControllerOverlay.processInner mode env cs st juju maas).2.1.deployed_charm_classes
       = st.deployed_charm_classes ∧
     (ControllerOverlay.processInner mode env cs st juju maas).2.1.finalized_charm_classes
       = st.finalized_charm_classes)
    ∨ ((∃ m, (ControllerOverlay.processInner mode env cs st juju maas).2.1.machine = some m) ∧
       ∀ b, (ControllerOverlay.processInner mode env cs st juju maas).1 = Except.ok b →
         (b = false ↔
           (ControllerOverlay.processInner
             mode env cs st juju maas).2.1.finalized_charm_classes.length = cs.length)) := by
  cases hm : st.machine with
  | some m =>
    right
    rw [processInner_machine_some mode env cs st juju maas m hm]
    obtain ⟨f1, _, _⟩ := processAfterMachine_fields env cs st juju m
    exact ⟨⟨m, by rw [f1, hm]⟩, processAfterMachine_ret env cs st juju m⟩
  | none =>
    have hS := get_controller_machine_state mode st juju maas
    unfold ControllerOverlay.processInner
    rw [hm]
    rcases hG : get_controller_machine mode st juju maas with ⟨mo, st1, ev1⟩
    rw [hG] at hS
    dsimp only at hS ⊢
    obtain ⟨hS1, hS2, hS3, hS4, hS5⟩ := hS
    cases mo with
    | none =>
      left
      exact ⟨rfl, by rw [hS1, hm], rfl, hS3, hS4⟩
    | some m =>
      right
      dsimp only
      split
      · obtain ⟨f1, _, _⟩ := processAfterMachine_fields env cs
          { st1 with machine := some m, single_net_configured := true } juju m
        exact ⟨⟨m, by simpa using f1⟩,
          processAfterMachine_ret env cs
            { st1 with machine := some m, single_net_configured := true } juju m⟩
      · obtain ⟨f1, _, _⟩ := processAfterMachine_fields env cs
          { st1 with machine := some m } juju m
        exact ⟨⟨m, by simpa using f1⟩,
          processAfterMachine_ret env cs { st1 with machine := some m } juju m⟩

theorem process_chain_mono (mode : Mode) (env : HookEnv) (cs : List CharmClass)
    (st : ControllerOverlay) (juju : JujuState) (maas : MaasState)
    (hch : ChainInv cs st) :
    ChainInv cs (ControllerOverlay.process mode env cs st juju maas).2.1 ∧
    st.deployed_charm_classes
      ⊆ (ControllerOverlay.process mode env cs st juju maas).2.1.deployed_charm_classes ∧
    st.finalized_charm_classes
      ⊆ (ControllerOverlay.process mode env cs st juju maas).2.1.finalized_charm_classes := by
  obtain ⟨dE, fE, h1, h2, h3, h4, h5⟩ := process_shape mode env cs st juju maas
  obtain ⟨hc1, hc2⟩ := hch
  have hdsub : st.deployed_charm_classes
      ⊆ (ControllerOverlay.process mode env cs st juju maas).2.1.deployed_charm_classes := by
    rw [h1]; exact List.subset_append_left _ _
  have hfsub : st.finalized_charm_classes
      ⊆ (ControllerOverlay.process mode env cs st juju maas).2.1.finalized_charm_classes := by
    rw [h3]; exact List.subset_append_left _ _
  refine ⟨⟨?_, ?_⟩, hdsub, hfsub⟩
  · rw [h3]
    intro c hc
    rcases List.mem_append.mp hc with h | h
    · exact hdsub (hc1 h)
    · exact (List.mem_filter.mp (h4.subset h)).1
  · rw [h1]
    intro c hc
    rcases List.mem_append.mp hc with h | h
    · exact hc2 h
    · exact (List.mem_filter.mp (h2.subset h)).1

theorem process_nodup (mode : Mode) (env : HookEnv) (cs : List CharmClass)
    (st : ControllerOverlay) (juju : JujuState) (maas : MaasState) (hcs : cs.Nodup)
    (hd : st.deployed_charm_classes.Nodup) (hf : st.finalized_charm_classes.Nodup) :
    (ControllerOverlay.process mode env cs st juju maas).2.1.deployed_charm_classes.Nodup ∧
    (ControllerOverlay.process mode env cs st juju maas).2.1.finalized_charm_classes.Nodup := by
  obtain ⟨dE, fE, h1, h2, h3, h4, h5⟩ := process_shape mode env cs st juju maas
  have hdep :
      (ControllerOverlay.process mode env cs st juju maas).2.1.deployed_charm_classes.Nodup := by
    rw [h1]
    refine List.Nodup.append hd (List.Nodup.sublist h2 (hcs.filter _)) ?_
    intro a ha hmem
    have h' := (List.mem_filter.mp (h2.subset hmem)).2
    simp at h'
    exact h' ha
  refine ⟨hdep, ?_⟩
  rw [h3]
  refine List.Nodup.append hf (List.Nodup.sublist h4 (hdep.filter _)) ?_
  intro a ha hmem
  have h' := (List.mem_filter.mp (h4.subset hmem)).2
  simp at h'
  exact h' ha

theorem nodup_cover_length (cs fin : List CharmClass) (hcs : cs.Nodup)
    (hfin : fin.Nodup) (hsub : fin ⊆ cs) :
    fin.length = cs.length ↔ ∀ c ∈ cs, c ∈ fin := by
  constructor
  · intro hlen c hc
    have hsp : List.Subperm fin cs := List.Nodup.subperm hfin hsub
    have hperm : List.Perm fin cs := hsp.perm_of_length_le (le_of_eq hlen.symm)
    exact hperm.mem_iff.mpr hc
  · intro hcov
    have hsp : List.Subperm fin cs := List.Nodup.subperm hfin hsub
    have hsp2 : List.Subperm cs fin := List.Nodup.subperm hcs (fun c hc => hcov c hc)
    exact le_antisymm hsp.length_le hsp2.length_le

theorem process_inv_iff (mode : Mode) (env : HookEnv) (cs : List CharmClass)
    (st : ControllerOverlay) (juju : JujuState) (maas : MaasState)
    (hcs : cs.Nodup) (hne : cs ≠ []) (hInv : Inv cs st) :
    Inv cs (ControllerOverlay.process mode env cs st juju maas).2.1 ∧
    ∀ b, (ControllerOverlay.process mode env cs st juju maas).1 = Except.ok b →
      ((b = false ↔ ∀ c ∈ cs,
          c ∈ (ControllerOverlay.process mode env cs st juju maas).2.1.finalized_charm_classes) ∧
       (b = false →
          (ControllerOverlay.process mode env cs st juju maas).2.1.done = true)) := by
  obtain ⟨hch, hd, hf, hdc, hmc⟩ := hInv
  obtain ⟨hch', hdsub, hfsub⟩ := process_chain_mono mode env cs st juju maas hch
  obtain ⟨hd', hf'⟩ := process_nodup mode env cs st juju maas hcs hd hf
  have hsubcs : (ControllerOverlay.process mode env cs st juju maas).2.1.finalized_charm_classes
      ⊆ cs := List.Subset.trans hch'.1 hch'.2
  have hcov := nodup_cover_length cs
    (ControllerOverlay.process mode env cs st juju maas).2.1.finalized_charm_classes
    hcs hf' hsubcs
  cases hdone : st.done with
  | true =>
    have hps : ControllerOverlay.process mode env cs st juju maas = (Except.ok false, st, []) := by
      simp [ControllerOverlay.process, hdone]
    rw [hps]
    refine ⟨⟨hch, hd, hf, fun _ => hdc hdone, hmc⟩, ?_⟩
    intro b hb
    simp only at hb
    have hb' : b = false := by
      have := hb.symm
      simpa using this
    subst hb'
    exact ⟨⟨fun _ => hdc hdone, fun _ => rfl⟩, fun _ => hdone⟩
  | false =>
    obtain ⟨e1, e2, e3, e4, e5, e6, e7, e8⟩ := process_state_eq mode env cs st juju maas hdone
    obtain ⟨dE0, fE0, _, _, _, _, _, hdn⟩ := processInner_shape mode env cs st juju maas
    refine ⟨⟨hch', hd', hf', ?_, ?_⟩, ?_⟩
    · -- done flag only set when everything is finalized
      intro hdone' c hc
      by_cases hbf : (ControllerOverlay.process mode env cs st juju maas).1 = Except.ok false
      · rcases processInner_cases mode env cs st juju maas with hA | hB
        · rw [e6, hA.1] at hbf
          simp at hbf
        · obtain ⟨hmach, hret⟩ := hB
          have hiff := hret false (by rw [← e6]; exact hbf)
          have hlen : (ControllerOverlay.process
              mode env cs st juju maas).2.1.finalized_charm_classes.length = cs.length := by
            rw [e2]; exact hiff.mp rfl
          exact (hcov.mp hlen) c hc
      · have hde := e8 hbf
        rw [hdn, hdone] at hde
        rw [hde] at hdone'
        simp at hdone'
    · -- no progress while no machine is chosen
      intro hm'
      rcases processInner_cases mode env cs st juju maas with hA | hB
      · obtain ⟨hr, hmach, hstm, hdep, hfin⟩ := hA
        exact ⟨by rw [e1, hdep, (hmc hstm).1], by rw [e2, hfin, (hmc hstm).2]⟩
      · obtain ⟨⟨m, hmach⟩, _⟩ := hB
        rw [e3, hmach] at hm'
        simp at hm'
    · -- return value characterization
      intro b hb
      rcases processInner_cases mode env cs st juju maas with hA | hB
      · obtain ⟨hr, hmach, hstm, hdep, hfin⟩ := hA
        have hb' : b = true := by
          rw [e6, hr] at hb
          simpa using hb.symm
        subst hb'
        refine ⟨⟨fun h => absurd h (by simp), fun hcovs => ?_⟩, fun h => absurd h (by simp)⟩
        exfalso
        obtain ⟨c0, hc0⟩ := List.exists_mem_of_ne_nil cs hne
        have hmem := hcovs c0 hc0
        rw [e2, hfin, (hmc hstm).2] at hmem
        simp at hmem
      · obtain ⟨hmach, hret⟩ := hB
        have hiff := hret b (by rw [← e6]; exact hb)
        refine ⟨⟨fun hbf => hcov.mp (by rw [e2]; exact hiff.mp hbf),
                 fun hcovs => hiff.mpr (by rw [← e2]; exact hcov.mpr hcovs)⟩, ?_⟩
        intro hbf
        subst hbf
        exact e7 hb

/- Lemmas about repeated process calls -/

theorem processSeq_machine_mono (mode : Mode) (cs : List CharmClass) :
    ∀ (inputs : List TickInput) (st : ControllerOverlay) (m : Machine),
      st.machine = some m →
      (processSeq mode cs st inputs).1.machine = some m ∧
      (∀ n t, Event.setup n t ∈ (processSeq mode cs st inputs).2 →
        t = "lxc:" ++ toString m.machine_id) ∧
      (processSeq mode cs st inputs).2.filter Event.isConfigureNetwork = [] := by
  intro inputs
  induction inputs with
  | nil => intro st m hm; exact ⟨hm, by simp [processSeq], by simp [processSeq]⟩
  | cons t rest ih =>
    intro st m hm
    obtain ⟨p1, p2, p3, p4⟩ := process_machine_mono mode t.env cs st t.juju t.maas m hm
    rcases hP : ControllerOverlay.process mode t.env cs st t.juju t.maas with ⟨r1, st1, ev1⟩
    rw [hP] at p1 p2 p3
    dsimp only at p1 p2 p3
    obtain ⟨q1, q2, q3⟩ := ih st1 m p1
    refine ⟨?_, ?_, ?_⟩
    · simp only [processSeq, hP]
      exact q1
    · intro n t' ht'
      simp only [processSeq, hP] at ht'
      try dsimp only at ht'
      rcases List.mem_append.mp ht' with h | h
      · exact p2 n t' h
      · exact q2 n t' h
    · simp only [processSeq, hP]
      try dsimp only
      rw [List.filter_append, p3, q3]
      rfl

theorem processSeq_config (cs : List CharmClass) :
    ∀ (inputs : List TickInput) (st : ControllerOverlay),
      st.machine = none → st.single_net_configured = false →
      ((processSeq Mode.single cs st inputs).2.filter Event.isConfigureNetwork).length
        = (if (processSeq Mode.single cs st inputs).1.machine.isSome then 1 else 0) := by
  intro inputs
  induction inputs with
  | nil =>
    intro st hm hn
    simp [processSeq, hm]
  | cons t rest ih =>
    intro st hm hn
    rcases process_single_none t.env cs st t.juju t.maas hm hn with hL | hR
    · obtain ⟨p1, p2, p3⟩ := hL
      rcases hP : ControllerOverlay.process Mode.single t.env cs st t.juju t.maas
        with ⟨r1, st1, ev1⟩
      rw [hP] at p1 p2 p3
      dsimp only at p1 p2 p3
      have hrec := ih st1 p1 p2
      simp only [processSeq, hP]
      try dsimp only
      rw [List.filter_append, p3]
      simpa using hrec
    · obtain ⟨m, p1, p3⟩ := hR
      rcases hP : ControllerOverlay.process Mode.single t.env cs st t.juju t.maas
        with ⟨r1, st1, ev1⟩
      rw [hP] at p1 p3
      dsimp only at p1 p3
      obtain ⟨q1, q2, q3⟩ := processSeq_machine_mono Mode.single cs rest st1 m p1
      simp only [processSeq, hP]
      try dsimp only
      rw [List.filter_append, p3, q3, q1]
      simp

theorem processSeq_chain (mode : Mode) (cs : List CharmClass) :
    ∀ (inputs : List TickInput) (st : ControllerOverlay),
      ChainInv cs st →
      ChainInv cs (processSeq mode cs st inputs).1 ∧
      st.deployed_charm_classes ⊆ (processSeq mode cs st inputs).1.deployed_charm_classes ∧
      st.finalized_charm_classes ⊆ (processSeq mode cs st inputs).1.finalized_charm_classes := by
  intro inputs
  induction inputs with
  | nil => intro st hch; exact ⟨hch, by simp [processSeq], by simp [processSeq]⟩
  | cons t rest ih =>
    intro st hch
    obtain ⟨hch1, hsub1, hsub2⟩ := process_chain_mono mode t.env cs st t.juju t.maas hch
    rcases hP : ControllerOverlay.process mode t.env cs st t.juju t.maas with ⟨r1, st1, ev1⟩
    rw [hP] at hch1 hsub1 hsub2
    dsimp only at hch1 hsub1 hsub2
    obtain ⟨q1, q2, q3⟩ := ih st1 hch1
    refine ⟨?_, ?_, ?_⟩ <;> simp only [processSeq, hP]
    · exact q1
    · exact List.Subset.trans hsub1 q2
    · exact List.Subset.trans hsub2 q3

theorem processSeq_inv (mode : Mode) (cs : List CharmClass)
    (hcs : cs.Nodup) (hne : cs ≠ []) :
    ∀ (inputs : List TickInput) (st : ControllerOverlay),
      Inv cs st → Inv cs (processSeq mode cs st inputs).1 := by
  intro inputs
  induction inputs with
  | nil => intro st hInv; simpa [processSeq] using hInv
  | cons t rest ih =>
    intro st hInv
    have hInv1 := (process_inv_iff mode t.env cs st t.juju t.maas hcs hne hInv).1
    rcases hP : ControllerOverlay.process mode t.env cs st t.juju t.maas with ⟨r1, st1, ev1⟩
    rw [hP] at hInv1
    dsimp only at hInv1
    have := ih st1 hInv1
    simpa only [processSeq, hP] using this

theorem Inv_init (mode : Mode) (cs : List CharmClass) :
    Inv cs (ControllerOverlay.init mode) := by
  refine ⟨⟨?_, ?_⟩, ?_, ?_, ?_, ?_⟩ <;> simp [ControllerOverlay.init]

/- Claim theorems -/

/-- C3: across any sequence of process calls from a state satisfying the
inclusion chain, deployedCharms and finalizedCharms only grow (no element is
ever removed) and the chain finalizedCharms is contained in deployedCharms is
contained in the registered charm classes holds after every call (every
intermediate state is an instance of this statement at a prefix of the
inputs). -/
theorem C3_sets_monotone_chain (mode : Mode) (cs : List CharmClass)
    (inputs : List TickInput) (st : ControllerOverlay) (hch : ChainInv cs st) :
    ChainInv cs (processSeq mode cs st inputs).1 ∧
    st.deployed_charm_classes ⊆ (processSeq mode cs st inputs).1.deployed_charm_classes ∧
    st.finalized_charm_classes ⊆ (processSeq mode cs st inputs).1.finalized_charm_classes :=
  processSeq_chain mode cs inputs st hch

theorem C3_witness :
    ChainInv [charmA]
      (processSeq Mode.single [charmA] (ControllerOverlay.init Mode.single)
        [tick0, tickNova]).1 ∧
    (ControllerOverlay.init Mode.single).deployed_charm_classes
      ⊆ (processSeq Mode.single [charmA] (ControllerOverlay.init Mode.single)
          [tick0, tickNova]).1.deployed_charm_classes ∧
    (ControllerOverlay.init Mode.single).finalized_charm_classes
      ⊆ (processSeq Mode.single [charmA] (ControllerOverlay.init Mode.single)
          [tick0, tickNova]).1.finalized_charm_classes :=
  C3_sets_monotone_chain Mode.single [charmA] [tick0, tickNova]
    (ControllerOverlay.init Mode.single)
    ⟨by simp [ControllerOverlay.init], by simp [ControllerOverlay.init]⟩

/-- C4: in any process call from a state satisfying the inclusion chain, the
resulting finalized set is contained in the resulting deployed set (a charm
is never finalized before it is deployed), and any charm newly finalized by
the call has a live service with its name in the call's snapshot (a charm
with no such service is skipped, staying deployed-but-unfinalized for a later
tick). -/
theorem C4_finalize_needs_deploy_and_service (mode : Mode) (env : HookEnv)
    (cs : List CharmClass) (st : ControllerOverlay) (juju : JujuState)
    (maas : MaasState) (hch : ChainInv cs st) :
    (ControllerOverlay.process mode env cs st juju maas).2.1.finalized_charm_classes
      ⊆ (ControllerOverlay.process mode env cs st juju maas).2.1.deployed_charm_classes ∧
    ∀ c, c ∈ (ControllerOverlay.process mode env cs st juju maas).2.1.finalized_charm_classes →
      c ∉ st.finalized_charm_classes → (juju.service c.name).isSome = true := by
  obtain ⟨hch', _, _⟩ := process_chain_mono mode env cs st juju maas hch
  obtain ⟨dE, fE, h1, h2, h3, h4, h5⟩ := process_shape mode env cs st juju maas
  refine ⟨hch'.1, ?_⟩
  intro c hc hnc
  rw [h3] at hc
  rcases List.mem_append.mp hc with h | h
  · exact absurd h hnc
  · exact h5 c h

theorem C4_witness :
    ((ControllerOverlay.process Mode.single envOk [charmA] stSelected
        jujuNova maasEmpty).2.1.finalized_charm_classes
      ⊆ (ControllerOverlay.process Mode.single envOk [charmA] stSelected
        jujuNova maasEmpty).2.1.deployed_charm_classes) ∧
    ∀ c, c ∈ (ControllerOverlay.process Mode.single envOk [charmA] stSelected
        jujuNova maasEmpty).2.1.finalized_charm_classes →
      c ∉ stSelected.finalized_charm_classes → (jujuNova.service c.name).isSome = true :=
  C4_finalize_needs_deploy_and_service Mode.single envOk [charmA] stSelected
    jujuNova maasEmpty ⟨by simp [stSelected], by simp [stSelected]⟩

/-- C2: for states reached from the initial orchestrator state by any
sequence of process calls with a duplicate-free, nonempty charm registry: a
process call that returns normally returns false exactly when
finalizedCharms covers every registered charm class; returning false latches
the done flag; and a call on a latched state returns false immediately, with
the state unchanged and no side effects (so steps 1-3 are not re-run). -/
theorem C2_completion_iff_and_latch (mode : Mode) (cs : List CharmClass)
    (hcs : cs.Nodup) (hne : cs ≠ []) (inputs : List TickInput) (t : TickInput)
    (st : ControllerOverlay)
    (hst : st = (processSeq mode cs (ControllerOverlay.init mode) inputs).1) :
    (∀ b, (ControllerOverlay.process mode t.env cs st t.juju t.maas).1 = Except.ok b →
      ((b = false ↔ ∀ c ∈ cs,
        c ∈ (ControllerOverlay.process mode t.env cs st t.juju t.maas).2.1.finalized_charm_classes) ∧
       (b = false →
        (ControllerOverlay.process mode t.env cs st t.juju t.maas).2.1.done = true))) ∧
    (st.done = true →
      ControllerOverlay.process mode t.env cs st t.juju t.maas = (Except.ok false, st, [])) := by
  have hInv : Inv cs st := by
    rw [hst]
    exact processSeq_inv mode cs hcs hne inputs _ (Inv_init mode cs)
  refine ⟨(process_inv_iff mode t.env cs st t.juju t.maas hcs hne hInv).2, ?_⟩
  intro hdone
  simp [ControllerOverlay.process, hdone]

theorem C2_witness :
    (∀ b, (ControllerOverlay.process Mode.single tick0.env [charmA]
        (ControllerOverlay.init Mode.single) tick0.juju tick0.maas).1 = Except.ok b →
      ((b = false ↔ ∀ c ∈ [charmA],
        c ∈ (ControllerOverlay.process Mode.single tick0.env [charmA]
          (ControllerOverlay.init Mode.single) tick0.juju
          tick0.maas).2.1.finalized_charm_classes) ∧
       (b = false →
        (ControllerOverlay.process Mode.single tick0.env [charmA]
          (ControllerOverlay.init Mode.single) tick0.juju tick0.maas).2.1.done = true))) ∧
    ((ControllerOverlay.init Mode.single).done = true →
      ControllerOverlay.process Mode.single tick0.env [charmA]
        (ControllerOverlay.init Mode.single) tick0.juju tick0.maas
        = (Except.ok false, ControllerOverlay.init Mode.single, [])) :=
  C2_completion_iff_and_latch Mode.single [charmA] (by simp) (by simp) [] tick0
    (ControllerOverlay.init Mode.single) rfl

/-- C8: in single-node mode, starting from a state with no controller machine
chosen and the network latch unset, the number of lxc network reconfiguration
side effects across any sequence of process calls is exactly one when a
controller machine has been selected by the end of the sequence and zero
otherwise: the reconfiguration happens with the first successful selection
and is never repeated, gated by the single_net_configured latch. -/
theorem C8_network_config_once (cs : List CharmClass) (inputs : List TickInput)
    (st : ControllerOverlay) (hm : st.machine = none)
    (hn : st.single_net_configured = false) :
    ((processSeq Mode.single cs st inputs).2.filter Event.isConfigureNetwork).length
      = (if (processSeq Mode.single cs st inputs).1.machine.isSome then 1 else 0) :=
  processSeq_config cs inputs st hm hn

theorem C8_witness :
    ((processSeq Mode.single [charmA] (ControllerOverlay.init Mode.single)
        [tick0, tickNova]).2.filter Event.isConfigureNetwork).length
      = (if (processSeq Mode.single [charmA] (ControllerOverlay.init Mode.single)
        [tick0, tickNova]).1.machine.isSome then 1 else 0) :=
  C8_network_config_once [charmA] [tick0, tickNova]
    (ControllerOverlay.init Mode.single) rfl rfl

/-- C10: once the orchestrator state holds a selected controller machine,
every further sequence of process calls leaves that machine in place
(regardless of what later snapshots contain), and every setup call performed
during those calls targets the lxc container on that machine's id. -/
theorem C10_machine_never_reselected (mode : Mode) (cs : List CharmClass)
    (inputs : List TickInput) (st : ControllerOverlay) (m : Machine)
    (hm : st.machine = some m) :
    (processSeq mode cs st inputs).1.machine = some m ∧
    ∀ n t, Event.setup n t ∈ (processSeq mode cs st inputs).2 →
      t = "lxc:" ++ toString m.machine_id := by
  obtain ⟨q1, q2, _⟩ := processSeq_machine_mono mode cs inputs st m hm
  exact ⟨q1, q2⟩

theorem C10_witness :
    (processSeq Mode.single [charmA] stSelected [tick0, tickNova]).1.machine = some mach0 ∧
    ∀ n t, Event.setup n t ∈ (processSeq Mode.single [charmA] stSelected [tick0, tickNova]).2 →
      t = "lxc:" ++ toString mach0.machine_id :=
  C10_machine_never_reselected Mode.single [charmA] [tick0, tickNova] stSelected mach0 rfl

/-- C5: a charm not yet deployed whose service name already appears among the
snapshot's services is marked deployed by the call without its setup hook
being invoked: no setup event for its name occurs in the call's side
effects. -/
theorem C5_existing_service_skips_setup (mode : Mode) (env : HookEnv)
    (cs : List CharmClass) (st : ControllerOverlay) (juju : JujuState)
    (maas : MaasState) (m : Machine) (c : CharmClass)
    (hdone : st.done = false) (hm : st.machine = some m)
    (hc : c ∈ cs) (hnd : c ∉ st.deployed_charm_classes)
    (hsvc : c.name ∈ juju.services.map (fun s => s.service_name))
    (hhon : ∀ x : CharmClass, env.setupRaises x.name = false) :
    c ∈ (ControllerOverlay.process mode env cs st juju maas).2.1.deployed_charm_classes ∧
    ∀ t, Event.setup c.name t ∉ (ControllerOverlay.process mode env cs st juju maas).2.2 := by
  obtain ⟨e1, e2, e3, e4, e5, _⟩ := process_state_eq mode env cs st juju maas hdone
  have hpi := processInner_machine_some mode env cs st juju maas m hm
  constructor
  · rw [e1, hpi, processAfterMachine_honest_deployed env cs st juju m hhon]
    exact List.mem_append.mpr (Or.inr (List.mem_filter.mpr ⟨hc, by simp [hnd]⟩))
  · intro t ht
    rw [e5, hpi] at ht
    exact (processAfterMachine_setup_events env cs st juju m c.name t ht).2 hsvc

theorem C5_witness :
    ((charmA ∈ cs0) ∧ charmA ∉ stSelected.deployed_charm_classes ∧
     charmA.name ∈ jujuNova.services.map (fun s => s.service_name)) ∧
    (charmA ∈ (ControllerOverlay.process Mode.single envOk cs0 stSelected
        jujuNova maasEmpty).2.1.deployed_charm_classes ∧
     ∀ t, Event.setup charmA.name t ∉ (ControllerOverlay.process Mode.single envOk cs0
        stSelected jujuNova maasEmpty).2.2) :=
  ⟨⟨by decide, by decide, by decide⟩,
   C5_existing_service_skips_setup Mode.single envOk cs0 stSelected jujuNova maasEmpty
     mach0 charmA rfl rfl (by decide) (by decide) (by decide)
     (fun x => rfl)⟩

/-- C1 counterexample: with a single registered charm whose setup hook
raises, a process call on a state with the controller machine already
selected raises to its caller (nothing inside the orchestrator catches the
failure) and the charm is NOT appended to deployedCharms, contradicting the
claim that the failure is caught inside process and the charm still marked
deployed. -/
theorem C1_counterexample :
    (ControllerOverlay.process Mode.single envNovaSetupRaises [charmA] stSelected
      jujuEmpty maasEmpty).1 = Except.error "setup failed" ∧
    charmA ∉ (ControllerOverlay.process Mode.single envNovaSetupRaises [charmA] stSelected
      jujuEmpty maasEmpty).2.1.deployed_charm_classes := by
  exact ⟨rfl, by decide⟩

/-- C1 amended: when the first not-yet-deployed charm has no service in the
snapshot and its setup hook raises, the exception propagates out of process
to its caller (it is caught and logged only at the AsyncBridge callback
boundary, outside the orchestrator), the charm is not marked deployed (so its
setup is retried on a later tick), and the selected controller machine is
kept. -/
theorem C1_setup_failure_propagates (mode : Mode) (env : HookEnv)
    (cs : List CharmClass) (st : ControllerOverlay) (juju : JujuState)
    (maas : MaasState) (m : Machine) (c : CharmClass) (rest : List CharmClass)
    (hdone : st.done = false) (hm : st.machine = some m)
    (hund : cs.filter (fun x => !decide (x ∈ st.deployed_charm_classes)) = c :: rest)
    (hsvc : c.name ∉ juju.services.map (fun s => s.service_name))
    (hraise : env.setupRaises c.name = true) :
    (ControllerOverlay.process mode env cs st juju maas).1
      = Except.error "setup failed" ∧
    c ∉ (ControllerOverlay.process mode env cs st juju maas).2.1.deployed_charm_classes ∧
    (ControllerOverlay.process mode env cs st juju maas).2.1.machine = some m := by
  obtain ⟨e1, e2, e3, e4, e5, e6, _, _⟩ := process_state_eq mode env cs st juju maas hdone
  have hpi := processInner_machine_some mode env cs st juju maas m hm
  have hcnd : c ∉ st.deployed_charm_classes := by
    have hmem : c ∈ cs.filter (fun x => !decide (x ∈ st.deployed_charm_classes)) := by
      rw [hund]
      exact List.mem_cons_self c rest
    simpa using (List.mem_filter.mp hmem).2
  have hdlp : deploy_loop env (juju.services.map fun s => s.service_name) m.machine_id
      (c :: rest) st.deployed_charm_classes
      = (Except.error "setup failed", st.deployed_charm_classes,
         [Event.setup c.name ("lxc:" ++ toString m.machine_id)]) := by
    simp [deploy_loop, hsvc, hraise]
  have h1 : (processAfterMachine env cs st juju m).1 = Except.error "setup failed" := by
    simp [processAfterMachine, hund, hdlp]
  have h2 : (processAfterMachine env cs st juju m).2.1.deployed_charm_classes
      = st.deployed_charm_classes := by
    simp [processAfterMachine, hund, hdlp]
  refine ⟨?_, ?_, ?_⟩
  · rw [e6, hpi, h1]
  · rw [e1, hpi, h2]
    exact hcnd
  · rw [e3, hpi, (processAfterMachine_fields env cs st juju m).1, hm]

theorem C1_witness :
    (ControllerOverlay.process Mode.single envNovaSetupRaises cs0 stSelected
      jujuEmpty maasEmpty).1 = Except.error "setup failed" ∧
    charmA ∉ (ControllerOverlay.process Mode.single envNovaSetupRaises cs0 stSelected
      jujuEmpty maasEmpty).2.1.deployed_charm_classes ∧
    (ControllerOverlay.process Mode.single envNovaSetupRaises cs0 stSelected
      jujuEmpty maasEmpty).2.1.machine = some mach0 :=
  C1_setup_failure_propagates Mode.single envNovaSetupRaises cs0 stSelected
    jujuEmpty maasEmpty mach0 charmA [charmB] rfl rfl (by decide) (by decide) (by decide)

/-- C7 counterexample: in the branch where infrastructure machines exist but
none is control-plane-allocated, the call's only side effect is the direct
synchronous command-runner addMachine call; no AsyncBridge operation is
launched, contradicting the claim that addMachine is issued via the
AsyncBridge. -/
theorem C7_counterexample :
    (ControllerOverlay.process Mode.multi envOk [charmA]
      (ControllerOverlay.init Mode.multi) jujuNoMachines maasOne).2.2
      = [Event.addMachine] ∧
    Event.launchAsync "add_machine" ∉ (ControllerOverlay.process Mode.multi envOk [charmA]
      (ControllerOverlay.init Mode.multi) jujuNoMachines maasOne).2.2 := by
  exact ⟨rfl, by decide⟩

/-- C7 amended: in multi-node mode with no controller machine chosen: with no
juju-allocated and no maas machines, process sets a waiting message and
returns continuing true with no side effects; with maas machines but none
juju-allocated, it performs the direct synchronous addMachine call through
the command runner (not an AsyncBridge operation) and returns continuing
true; otherwise it picks the first allocated machine whose agent state is
started, returning continuing true with none selected when no machine
qualifies. -/
theorem C7_multi_acquisition (env : HookEnv) (cs : List CharmClass)
    (st : ControllerOverlay) (juju : JujuState) (maas : MaasState)
    (hdone : st.done = false) (hm : st.machine = none) :
    (juju.machines = [] → maas.machines = [] →
      ControllerOverlay.process Mode.multi env cs st juju maas
        = (Except.ok true,
           { st with info_text :=
               "No machines allocated to juju. Please pxe boot a machine." },
           [])) ∧
    (juju.machines = [] → maas.machines ≠ [] →
      ControllerOverlay.process Mode.multi env cs st juju maas
        = (Except.ok true, { st with info_text := "Adding maas machine to juju" },
           [Event.addMachine])) ∧
    (juju.machines ≠ [] →
      juju.machines.filter (fun x => x.agent_state == "started") = [] →
      ControllerOverlay.process Mode.multi env cs st juju maas
        = (Except.ok true,
           { st with info_text := "Waiting for a machine to become ready." }, [])) ∧
    (∀ m restM, juju.machines ≠ [] →
      juju.machines.filter (fun x => x.agent_state == "started") = m :: restM →
      (ControllerOverlay.process Mode.multi env cs st juju maas).2.1.machine = some m) := by
  refine ⟨?_, ?_, ?_, ?_⟩
  · intro hj hma
    simp [ControllerOverlay.process, ControllerOverlay.processInner,
      get_controller_machine, hdone, hm, hj, hma]
  · intro hj hma
    simp [ControllerOverlay.process, ControllerOverlay.processInner,
      get_controller_machine, hdone, hm, hj, hma, List.length_pos]
  · intro hjne hflt
    simp [ControllerOverlay.process, ControllerOverlay.processInner,
      get_controller_machine, get_started_machine, hdone, hm, hjne, hflt,
      List.length_pos, List.length_eq_zero]
  · intro m restM hjne hflt
    obtain ⟨e1, e2, e3, _⟩ := process_state_eq Mode.multi env cs st juju maas hdone
    rw [e3]
    unfold ControllerOverlay.processInner
    rw [hm]
    have hg : get_controller_machine Mode.multi st juju maas = (some m, st, []) := by
      simp [get_controller_machine, get_started_machine, hjne, hflt,
        List.length_pos, List.length_eq_zero]
    rw [hg]
    dsimp only
    rw [if_neg (by simp)]
    obtain ⟨f1, _, _⟩ := processAfterMachine_fields env cs
      { st with machine := some m } juju m
    simpa using f1

theorem C7_witness :
    (jujuNoMachines.machines = [] → maasOne.machines = [] →
      ControllerOverlay.process Mode.multi envOk [charmA]
        (ControllerOverlay.init Mode.multi) jujuNoMachines maasOne
        = (Except.ok true,
           { ControllerOverlay.init Mode.multi with info_text :=
               "No machines allocated to juju. Please pxe boot a machine." },
           [])) ∧
    (jujuNoMachines.machines = [] → maasOne.machines ≠ [] →
      ControllerOverlay.process Mode.multi envOk [charmA]
        (ControllerOverlay.init Mode.multi) jujuNoMachines maasOne
        = (Except.ok true,
           { ControllerOverlay.init Mode.multi with
               info_text := "Adding maas machine to juju" },
           [Event.addMachine])) ∧
    (jujuNoMachines.machines ≠ [] →
      jujuNoMachines.machines.filter (fun x => x.agent_state == "started") = [] →
      ControllerOverlay.process Mode.multi envOk [charmA]
        (ControllerOverlay.init Mode.multi) jujuNoMachines maasOne
        = (Except.ok true,
           { ControllerOverlay.init Mode.multi with
               info_text := "Waiting for a machine to become ready." }, [])) ∧
    (∀ m restM, jujuNoMachines.machines ≠ [] →
      jujuNoMachines.machines.filter (fun x => x.agent_state == "started") = m :: restM →
      (ControllerOverlay.process Mode.multi envOk [charmA]
        (ControllerOverlay.init Mode.multi) jujuNoMachines maasOne).2.1.machine = some m) :=
  C7_multi_acquisition envOk [charmA] (ControllerOverlay.init Mode.multi)
    jujuNoMachines maasOne rfl rfl

/-- C6: a bridged run_async call whose blocking function raises fires the
callback exactly once, with the initial None result value (never an error
value), and the failure is captured in the bridge's log rather than
propagated; run_async is total, so no uncaught failure reaches the loop. -/
theorem C6_bridge_swallows_failure {α : Type} (f : Except String α)
    (cb : Option α → Except String Unit) (e : String) (hf : f = Except.error e) :
    (run_async f cb).callbackArgs = [none] ∧
    (run_async f cb).worker_log = [e] := by
  subst hf
  exact ⟨rfl, rfl⟩

theorem C6_witness :
    (run_async (Except.error "boom" : Except String Nat)
      (fun _ => Except.ok ())).callbackArgs = [none] ∧
    (run_async (Except.error "boom" : Except String Nat)
      (fun _ => Except.ok ())).worker_log = ["boom"] :=
  C6_bridge_swallows_failure (Except.error "boom") (fun _ => Except.ok ()) "boom" rfl

/-- C9: each tick applies exactly one decrement to the countdown, after
resetting it to the poll interval when it was zero at entry; a bridged poll
is launched exactly on the ticks entered with a zero countdown; the timer
text shows the pre-decrement value; the F5 key zeroes the countdown so the
next tick polls immediately; and the poll's callback update_and_redraw
invokes the orchestrator's process (adopting its resulting state and side
effects) and then requests a redraw. -/
theorem C9_tick_scheduler (mode : Mode) (env : HookEnv) (cs : List CharmClass)
    (nv : NodeViewMode) (juju : JujuState) (maas : MaasState) :
    ((NodeViewMode.tick nv).1.ticks_left
        = (if nv.ticks_left = 0 then nv.poll_interval else nv.ticks_left) - 1) ∧
    ((NodeViewMode.tick nv).2
        = if nv.ticks_left = 0 then [Event.launchAsync "refresh_states"] else []) ∧
    ((NodeViewMode.tick nv).1.timer = "(Re-poll in "
        ++ toString (if nv.ticks_left = 0 then nv.poll_interval else nv.ticks_left)
        ++ " (s))") ∧
    ((NodeViewMode.keypress nv "f5").ticks_left = 0) ∧
    (nv.targetIsOverlay = true →
      ∀ b st' ev, ControllerOverlay.process mode env cs nv.overlay juju maas
          = (Except.ok b, st', ev) →
        (NodeViewMode.update_and_redraw mode env cs nv juju maas).2.1.overlay = st' ∧
        (NodeViewMode.update_and_redraw mode env cs nv juju maas).2.2
          = ev ++ [Event.drawScreen]) := by
  refine ⟨?_, ?_, ?_, ?_, ?_⟩
  · by_cases h : nv.ticks_left = 0 <;> simp [NodeViewMode.tick, h]
  · by_cases h : nv.ticks_left = 0 <;> simp [NodeViewMode.tick, h]
  · by_cases h : nv.ticks_left = 0 <;> simp [NodeViewMode.tick, h]
  · simp [NodeViewMode.keypress]
  · intro hov b st' ev hp
    simp only [NodeViewMode.update_and_redraw, NodeViewMode.do_update, hov, hp]
    cases b <;> simp

theorem C9_witness :
    ((NodeViewMode.tick nvDemo).1.ticks_left = 9) ∧
    ((NodeViewMode.tick nvDemo).2 = [Event.launchAsync "refresh_states"]) ∧
    ((NodeViewMode.keypress nvDemo "f5").ticks_left = 0) ∧
    ((NodeViewMode.update_and_redraw Mode.single envOk [charmA] nvDemo jujuNova
        maasEmpty).2.1.overlay
      = (ControllerOverlay.process Mode.single envOk [charmA] stSelected jujuNova
          maasEmpty).2.1) ∧
    ((NodeViewMode.update_and_redraw Mode.single envOk [charmA] nvDemo jujuNova
        maasEmpty).2.2
      = (ControllerOverlay.process Mode.single envOk [charmA] stSelected jujuNova
          maasEmpty).2.2 ++ [Event.drawScreen]) := by
  obtain ⟨h1, h2, h3, h4, h5⟩ :=
    C9_tick_scheduler Mode.single envOk [charmA] nvDemo jujuNova maasEmpty
  obtain ⟨h6, h7⟩ := h5 rfl false
    (ControllerOverlay.process Mode.single envOk [charmA] stSelected jujuNova maasEmpty).2.1
    (ControllerOverlay.process Mode.single envOk [charmA] stSelected jujuNova maasEmpty).2.2
    rfl
  exact ⟨by rw [h1]; decide, by rw [h2]; decide, h4, h6, h7⟩

end CloudInst
